import Mathlib

/-!
Verification of the mtprotoproxy core (mtprotoproxy.py): a shallow embedding
of the obfuscated2 handshake, the streaming AES-CTR wrappers, the upstream
handshake, the pump loops and the per-user statistics, together with proofs
of the behavioural properties stated in the specification.

Modelling conventions:
* bytes are `Nat`s, byte strings are `List Nat`;
* the AES block primitive and SHA-256 come from external libraries
  (pycrypto / pyaes and hashlib), so they are abstract parameters: a
  `BlockF` maps a key and a 128-bit counter value to a 16-byte keystream
  block, a `HashF` maps a byte string to its digest.  No claim depends on
  their internals, only on both endpoints applying the same functions;
* the CTR keystream is byte-position continuous across calls, as the
  specification requires for arbitrary-length reads and writes
  ("keystream continuity across calls is required") and as the wire
  protocol needs for interoperation: the cipher state records the number
  of keystream bytes already consumed;
* asynchronous I/O is modelled by explicit inputs (the bytes available on
  a stream, the sequence of read results seen by a pump) and explicit
  outputs (traces of actions performed), and exceptions by an explicit
  error taxonomy mirroring Python's exception classes.
-/

namespace Mtp

abbrev Bytes := List Nat

/-- Abstract AES block primitive: key and counter value to a keystream block. -/
abbrev BlockF := Bytes → Nat → Bytes

/-- Abstract SHA-256: a byte string to its digest. -/
abbrev HashF := Bytes → Bytes

/-- `int.from_bytes(bs, "big")`. -/
def fromBytesBE (bs : Bytes) : Nat := bs.foldl (fun a b => a * 256 + b) 0

/-- `int.from_bytes(bs, "little")`. -/
def fromBytesLE (bs : Bytes) : Nat := bs.foldr (fun b a => a * 256 + b) 0

/-- `int.from_bytes(bs, "little", signed=True)`. -/
def fromBytesLEsigned (bs : Bytes) : Int :=
  let u := fromBytesLE bs
  if 2 * u < 2 ^ (8 * bs.length) then (u : Int) else (u : Int) - 2 ^ (8 * bs.length)

/-- The state of one AES-CTR instance as built by `create_aes`: the key, the
128-bit initial counter value taken from the IV, and the number of keystream
bytes consumed so far (the keystream is byte-position continuous). -/
structure AesCtr where
  key : Bytes
  iv : Nat
  pos : Nat
deriving DecidableEq

/-- `create_aes(key, iv)` (lines 16-26): a fresh CTR instance whose counter
starts at the IV and which has consumed no keystream yet. -/
def create_aes (key : Bytes) (iv : Nat) : AesCtr :=
  { key := key, iv := iv, pos := 0 }

/-- Keystream byte at absolute byte position `p`: byte `p % 16` of the block
produced for counter value `iv + p / 16` (the counter is 128 bits wide). -/
def ksByte (F : BlockF) (key : Bytes) (iv p : Nat) : Nat :=
  (F key ((iv + p / 16) % 2 ^ 128)).getD (p % 16) 0

/-- XOR a byte string with the keystream starting at byte position `p`. -/
def xorStream (F : BlockF) (key : Bytes) (iv : Nat) : Nat → Bytes → Bytes
  | _, [] => []
  | p, b :: bs => (b ^^^ ksByte F key iv p) :: xorStream F key iv (p + 1) bs

/-- One `encrypt`/`decrypt` call on a CTR instance: XOR with the keystream at
the current position and advance the position by the length of the buffer.
Encryption and decryption are the same operation. -/
def transform (F : BlockF) (st : AesCtr) (buf : Bytes) : Bytes × AesCtr :=
  (xorStream F st.key st.iv st.pos buf, { st with pos := st.pos + buf.length })

/-- Number of keystream blocks the instance has generated: block `i` is
needed as soon as byte `16 * i` is consumed. -/
def blocksGenerated (st : AesCtr) : Nat := (st.pos + 15) / 16

/-- Process a sequence of buffers through one CTR instance, threading the
state across calls (the chunked use every stream wrapper makes of it). -/
def transformAll (F : BlockF) : AesCtr → List Bytes → List Bytes × AesCtr
  | st, [] => ([], st)
  | st, c :: cs =>
    let r := transform F st c
    let rest := transformAll F r.2 cs
    (r.1 :: rest.1, rest.2)

theorem xorStream_length (F : BlockF) (key : Bytes) (iv : Nat) :
    ∀ (p : Nat) (bs : Bytes), (xorStream F key iv p bs).length = bs.length := by
  intro p bs
  induction bs generalizing p with
  | nil => rfl
  | cons b bs ih => simp [xorStream, ih]

theorem xorStream_append (F : BlockF) (key : Bytes) (iv : Nat) :
    ∀ (p : Nat) (xs ys : Bytes),
      xorStream F key iv p (xs ++ ys)
        = xorStream F key iv p xs ++ xorStream F key iv (p + xs.length) ys := by
  intro p xs ys
  induction xs generalizing p with
  | nil => simp [xorStream]
  | cons x xs ih =>
    simp only [List.cons_append, xorStream, List.append_eq, ih (p + 1), List.length_cons]
    have h : p + 1 + xs.length = p + (xs.length + 1) := by omega
    rw [h]

theorem xorStream_involution (F : BlockF) (key : Bytes) (iv : Nat) :
    ∀ (p : Nat) (bs : Bytes),
      xorStream F key iv p (xorStream F key iv p bs) = bs := by
  intro p bs
  induction bs generalizing p with
  | nil => rfl
  | cons b bs ih =>
    simp [xorStream, ih (p + 1), Nat.xor_assoc, Nat.xor_self, Nat.xor_zero]

theorem transform_length (F : BlockF) (st : AesCtr) (buf : Bytes) :
    (transform F st buf).1.length = buf.length :=
  xorStream_length F st.key st.iv st.pos buf

theorem transform_empty (F : BlockF) (st : AesCtr) :
    transform F st [] = ([], st) := by
  simp [transform, xorStream]

theorem transform_involution (F : BlockF) (st : AesCtr) (buf : Bytes) :
    (transform F st (transform F st buf).1).1 = buf :=
  xorStream_involution F st.key st.iv st.pos buf

theorem transform_state (F : BlockF) (st : AesCtr) (buf : Bytes) :
    (transform F st buf).2 = { st with pos := st.pos + buf.length } := rfl

/-- Chunked processing equals one-shot processing of the concatenation:
the keystream position advances by exactly the number of bytes of every
chunk, so chunk boundaries do not matter. -/
theorem transformAll_flatten (F : BlockF) :
    ∀ (cs : List Bytes) (st : AesCtr),
      (transformAll F st cs).1.flatten = (transform F st cs.flatten).1 ∧
      (transformAll F st cs).2 = { st with pos := st.pos + cs.flatten.length } := by
  intro cs
  induction cs with
  | nil =>
    intro st
    simp [transformAll, transform, xorStream]
  | cons c cs ih =>
    intro st
    have h := ih { st with pos := st.pos + c.length }
    constructor
    · simp only [transformAll, List.flatten_cons, transform] at *
      rw [xorStream_append]
      exact congrArg _ h.1
    · simp only [transformAll, List.flatten_cons, transform] at *
      rw [h.2]
      simp [Nat.add_assoc, List.length_append]

/-! ### Client handshake acceptor (`handle_handshake`, lines 103-130) -/

/-- A configured user: `USERS` maps names to hex secrets; iteration order is
the configuration order.  `secret` is the decoded secret. -/
structure User where
  name : String
  secret : Bytes
deriving DecidableEq

/-- `MAGIC_VAL_TO_CHECK` (line 61). -/
def MAGIC_VAL_TO_CHECK : Bytes := [0xef, 0xef, 0xef, 0xef]

/-- `handshake[SKIP_LEN : SKIP_LEN+PREKEY_LEN+IV_LEN]` = bytes 8..56. -/
def dec_prekey_and_iv (hs : Bytes) : Bytes := (hs.drop 8).take 48

/-- `dec_key = sha256(dec_prekey + secret)` (line 111). -/
def clientDecKey (H : HashF) (hs secret : Bytes) : Bytes :=
  H ((dec_prekey_and_iv hs).take 32 ++ secret)

/-- The big-endian counter seed for the client-to-relay decryptor (line 112). -/
def clientDecIv (hs : Bytes) : Nat := fromBytesBE ((dec_prekey_and_iv hs).drop 32)

/-- The reversed slice `handshake[8:56][::-1]` (line 114). -/
def enc_prekey_and_iv (hs : Bytes) : Bytes := ((hs.drop 8).take 48).reverse

/-- `enc_key = sha256(enc_prekey + secret)` (line 116). -/
def clientEncKey (H : HashF) (hs secret : Bytes) : Bytes :=
  H ((enc_prekey_and_iv hs).take 32 ++ secret)

/-- The IV bytes of the relay-to-client encryptor (line 115). -/
def clientEncIvBytes (hs : Bytes) : Bytes := (enc_prekey_and_iv hs).drop 32

/-- `decrypted = decryptor.decrypt(handshake)` (line 119) for user `u`:
the whole 64-byte preamble under a fresh trial decryptor. -/
def decryptedOf (H : HashF) (F : BlockF) (hs : Bytes) (u : User) : Bytes :=
  (transform F (create_aes (clientDecKey H hs u.secret) (clientDecIv hs)) hs).1

/-- The magic test (lines 121-122): decrypted bytes 56..60 equal
`EF EF EF EF`. -/
def magicOk (H : HashF) (F : BlockF) (hs : Bytes) (u : User) : Bool :=
  decide (((decryptedOf H F hs u).drop 56).take 4 = MAGIC_VAL_TO_CHECK)

/-- `dc_idx = abs(int.from_bytes(decrypted[60:62], "little", signed=True)) - 1`
(line 125). -/
def dcIdxOf (H : HashF) (F : BlockF) (hs : Bytes) (u : User) : Int :=
  ((fromBytesLEsigned (((decryptedOf H F hs u).drop 60).take 2)).natAbs : Int) - 1

/-- What `handle_handshake` returns on success (line 129): the wrapped
streams are represented by the cipher states their wrappers hold. -/
structure HandshakeResult where
  user : String
  dc_idx : Int
  decryptor : AesCtr
  encryptor : AesCtr
  enc_key_and_iv : Bytes
deriving DecidableEq

/-- The bundle returned for a matching user `u` (lines 125-129): the trial
decryptor with its keystream already advanced past byte 64, the fresh
encryptor, and the 48-byte `enc_key + enc_iv` reuse material. -/
def handshakeResultOf (H : HashF) (F : BlockF) (hs : Bytes) (u : User) : HandshakeResult :=
  { user := u.name
    dc_idx := dcIdxOf H F hs u
    decryptor :=
      (transform F (create_aes (clientDecKey H hs u.secret) (clientDecIv hs)) hs).2
    encryptor :=
      create_aes (clientEncKey H hs u.secret) (fromBytesBE (clientEncIvBytes hs))
    enc_key_and_iv := clientEncKey H hs u.secret ++ clientEncIvBytes hs }

/-- One iteration of the user loop (lines 106-129): build the trial
decryptor and the encryptor, decrypt the preamble, test the magic. -/
def tryUser (H : HashF) (F : BlockF) (hs : Bytes) (u : User) : Option HandshakeResult :=
  if magicOk H F hs u then some (handshakeResultOf H F hs u) else none

/-- The user loop: users are tried in configured order, first match wins. -/
def matchUsers (H : HashF) (F : BlockF) (hs : Bytes) : List User → Option HandshakeResult
  | [] => none
  | u :: us =>
    match tryUser H F hs u with
    | some r => some r
    | none => matchUsers H F hs us

/-- How `handle_handshake` fails: `readexactly` raises on a short read
(line 104), and exhausting the user loop returns `False` (line 130). -/
inductive HsFail
  | incompleteRead
  | noUserMatched
deriving DecidableEq

/-- `handle_handshake(reader, writer)` as a function of the bytes available
on the client stream: read exactly 64 bytes, then run the user loop. -/
def handle_handshake (H : HashF) (F : BlockF) (users : List User) (input : Bytes) :
    Except HsFail HandshakeResult :=
  if input.length < 64 then .error .incompleteRead
  else
    match matchUsers H F (input.take 64) users with
    | some r => .ok r
    | none => .error .noUserMatched

/-! ### Upstream handshake initiator (`do_direct_handshake`, lines 133-188) -/

def TG_DATACENTERS_V4 : List String :=
  ["149.154.175.50", "149.154.167.51", "149.154.175.100",
   "149.154.167.91", "149.154.171.5"]

def TG_DATACENTERS_V6 : List String :=
  ["2001:b28:f23d:f001::a", "2001:67c:04e8:f002::a", "2001:b28:f23d:f003::a",
   "2001:67c:04e8:f004::a", "2001:b28:f23f:f005::a"]

def RESERVED_NONCE_FIRST_CHARS : List Bytes := [[0xef]]

def RESERVED_NONCE_BEGININGS : List Bytes :=
  [[0x48, 0x45, 0x41, 0x44], [0x50, 0x4F, 0x53, 0x54],
   [0x47, 0x45, 0x54, 0x20], [0xee, 0xee, 0xee, 0xee]]

def RESERVED_NONCE_CONTINUES : List Bytes := [[0x00, 0x00, 0x00, 0x00]]

/-- The rejection-sampling test of lines 157-162: a candidate preamble is
kept iff none of the reserved patterns occur. -/
def acceptable (rnd : Bytes) : Bool :=
  !(RESERVED_NONCE_FIRST_CHARS.contains (rnd.take 1)) &&
  !(RESERVED_NONCE_BEGININGS.contains (rnd.take 4)) &&
  !(RESERVED_NONCE_CONTINUES.contains ((rnd.drop 4).take 4))

/-- The sampling loop (lines 155-163) over an explicit stream of random
64-byte candidates: the first acceptable candidate is kept. -/
def sampleLoop : List Bytes → Option Bytes
  | [] => none
  | r :: rs => if acceptable r then some r else sampleLoop rs

/-- Python slice assignment `l[off : off+len(v)] = v` on a bytearray. -/
def setSlice (l : Bytes) (off : Nat) (v : Bytes) : Bytes :=
  l.take off ++ v ++ l.drop (off + v.length)

/-- The two overwrites applied to the sampled preamble: the magic at bytes
56..60 (line 165) and, when key reuse is requested with a truthy (non-empty)
value, the reversed reuse material at bytes 8..56 (lines 167-168). -/
def settleRnd (rnd : Bytes) (reuse : Option Bytes) : Bytes :=
  let r1 := setSlice rnd 56 MAGIC_VAL_TO_CHECK
  match reuse with
  | some k => if k.isEmpty then r1 else setSlice r1 8 k.reverse
  | none => r1

/-- `dec_key_and_iv = rnd[8:56][::-1]` (line 172). -/
def upstreamDecKeyIv (rnd : Bytes) : Bytes := ((rnd.drop 8).take 48).reverse

/-- `enc_key_and_iv = rnd[8:56]` (line 176). -/
def upstreamEncKeyIv (rnd : Bytes) : Bytes := (rnd.drop 8).take 48

/-- What `do_direct_handshake` returns on success: the cipher states of the
two upstream wrappers, plus (as ghost data for the statements below) the
settled preamble and the bytes actually written to the datacenter. -/
structure DirectResult where
  decryptor : AesCtr
  encryptor : AesCtr
  rnd : Bytes
  rnd_enc : Bytes
deriving DecidableEq

/-- How `do_direct_handshake` fails: the datacenter-index bounds check
(lines 139-146), a refused/failed TCP connection (lines 148-153), or -- as
an artefact of feeding the sampling loop a finite candidate stream -- the
loop never settling. -/
inductive DirectFail
  | badDcIdx
  | connectFailed
  | samplingDiverges
deriving DecidableEq

/-- Externally visible actions of one supervised connection attempt. -/
inductive Action
  | readExact (n : Nat)
  | writeClient (b : Bytes)
  | closeClient
  | connectUpstream (dc : String)
  | writeUpstream (b : Bytes)
deriving DecidableEq

/-- Lines 172-186 applied to the settled preamble `rnd`: derive the two
upstream ciphers, encrypt the whole preamble once, splice
`rnd[:56] + encrypted[56:]` as the bytes to transmit. -/
def mkDirectResult (F : BlockF) (rnd : Bytes) : DirectResult :=
  let dk := upstreamDecKeyIv rnd
  let ek := upstreamEncKeyIv rnd
  let enc0 := create_aes (ek.take 32) (fromBytesBE (ek.drop 32))
  let encRes := transform F enc0 rnd
  { decryptor := create_aes (dk.take 32) (fromBytesBE (dk.drop 32))
    encryptor := encRes.2
    rnd := rnd
    rnd_enc := rnd.take 56 ++ encRes.1.drop 56 }

/-- The endpoint list selected by `PREFER_IPV6` (lines 139-146). -/
def dcListFor (prefer_ipv6 : Bool) : List String :=
  if prefer_ipv6 then TG_DATACENTERS_V6 else TG_DATACENTERS_V4

/-- `do_direct_handshake(dc_idx, dec_key_and_iv)` as a function of the
configuration flag, the candidate stream feeding the sampling loop, and
whether the TCP connect succeeds.  Returns the result together with the
trace of externally visible actions, in order. -/
def do_direct_run (F : BlockF) (prefer_ipv6 : Bool) (dc_idx : Int)
    (dec_key_and_iv : Option Bytes) (candidates : List Bytes) (connectOk : Bool) :
    Except DirectFail DirectResult × List Action :=
  if ¬(0 ≤ dc_idx ∧ dc_idx < ((dcListFor prefer_ipv6).length : Int)) then
    (.error .badDcIdx, [])
  else
    if ¬connectOk then
      (.error .connectFailed, [.connectUpstream ((dcListFor prefer_ipv6).getD dc_idx.toNat "")])
    else
      match sampleLoop candidates with
      | none =>
        (.error .samplingDiverges,
         [.connectUpstream ((dcListFor prefer_ipv6).getD dc_idx.toNat "")])
      | some rnd0 =>
        (.ok (mkDirectResult F (settleRnd rnd0 dec_key_and_iv)),
         [.connectUpstream ((dcListFor prefer_ipv6).getD dc_idx.toNat ""),
          .writeUpstream (mkDirectResult F (settleRnd rnd0 dec_key_and_iv)).rnd_enc])

/-! ### Connection supervisor (`handle_client` / `handle_client_wrapper`,
lines 191-256) and fast mode -/

/-- The configuration consumed by the supervisor. -/
structure ClientConfig where
  users : List User
  prefer_ipv6 : Bool
  fast_mode : Bool

/-- The straight-line action trace of `handle_client` (lines 191-249) up to
the point where the two pump tasks are spawned, with the wrapper's
close-on-exception behaviour folded in: both a raised short read and a
falsy handshake result end in the client stream being closed.  The
supervisor itself never writes to the client (only the pumps do). -/
def handle_client_run (H : HashF) (F : BlockF) (cfg : ClientConfig) (input : Bytes)
    (candidates : List Bytes) (connectOk : Bool) : List Action :=
  .readExact 64 ::
    match handle_handshake H F cfg.users input with
    | .error _ => [.closeClient]
    | .ok r =>
      let reuse := if cfg.fast_mode then some r.enc_key_and_iv else none
      let tg := do_direct_run F cfg.prefer_ipv6 r.dc_idx reuse candidates connectOk
      tg.2 ++
        match tg.1 with
        | .error _ => [.closeClient]
        | .ok _ => []

/-- Whether an action is a read request on the client stream. -/
def isReadAct : Action → Bool
  | .readExact _ => true
  | _ => false

/-- Whether an action writes bytes to the client stream. -/
def isClientWriteAct : Action → Bool
  | .writeClient _ => true
  | _ => false

/-- `FakeDecryptor` / `FakeEncryptor` (lines 216-222): the identity
transform the supervisor swaps in under fast mode. -/
def fakeTransform (b : Bytes) : Bytes := b

/-- The client-bound leg under fast mode: every chunk received from the
datacenter goes through the identity decryptor and the identity encryptor,
i.e. it is forwarded verbatim. -/
def relayChunksFast (cs : List Bytes) : List Bytes :=
  cs.map (fun c => fakeTransform (fakeTransform c))

/-- The client-bound leg without fast mode: each chunk received from the
datacenter is decrypted by the upstream reader's cipher and re-encrypted by
the client writer's cipher, both ciphers keeping their streaming state. -/
def relayChunks (F : BlockF) : AesCtr → AesCtr → List Bytes → List Bytes
  | _, _, [] => []
  | dec, enc, c :: cs =>
    let d := transform F dec c
    let e := transform F enc d.1
    e.1 :: relayChunks F d.2 e.2 cs

/-! ### Exceptions and the pump (`connect_reader_to_writer`, lines 227-246) -/

/-- The exception classes relevant to the relay, mirroring Python's
hierarchy: `ConnectionResetError`, `BrokenPipeError` and
`ConnectionRefusedError` are distinct subclasses of `OSError`; `osOther`
stands for any other `OSError`; `asyncio.IncompleteReadError` and
`AttributeError` are not `OSError`s. -/
inductive Exc
  | incompleteRead
  | connectionReset
  | brokenPipe
  | connectionRefused
  | osOther
  | attributeError
deriving DecidableEq

/-- Membership in Python's `OSError` class. -/
def isOSError : Exc → Bool
  | .connectionReset => true
  | .brokenPipe => true
  | .connectionRefused => true
  | .osOther => true
  | _ => false

/-- The catch clause of the pump (lines 241-242):
`except (ConnectionResetError, BrokenPipeError, OSError, AttributeError)`.
Since `OSError` is a superclass of the first two, this is every `OSError`
plus `AttributeError`. -/
def pumpCatches (e : Exc) : Bool := isOSError e || e == .attributeError

/-- The catch clause of `handle_client_wrapper` (line 255):
`except (asyncio.IncompleteReadError, ConnectionResetError)`. -/
def wrapperCatches (e : Exc) : Bool := e == .incompleteRead || e == .connectionReset

/-- The catch clauses around `asyncio.open_connection` (lines 150-153):
`ConnectionRefusedError` and `OSError` both return `False`. -/
def directConnectCatches (e : Exc) : Bool := e == .connectionRefused || isOSError e

/-- The transport faults named by the specification: connection reset,
broken pipe, generic OS error. -/
def isTransportFault (e : Exc) : Bool :=
  e == .connectionReset || e == .brokenPipe || e == .osOther

/-- What escapes `handle_client_wrapper` into the reactor when
`handle_client` raised `e` (or nothing). -/
def wrapperEscape : Option Exc → Option Exc
  | none => none
  | some e => if wrapperCatches e then none else some e

/-- Which exception (if any) escapes `handle_client` itself, given an
exception raised at one of its await points: the handshake read (line 192,
no local handler), the upstream `open_connection` (caught inside
`do_direct_handshake`, lines 148-153), and the upstream preamble
write/drain (lines 182-183, no local handler). -/
def handle_client_escape (hsFault connectFault drainFault : Option Exc) : Option Exc :=
  match hsFault with
  | some e => some e
  | none =>
    match connectFault with
    | some e => if directConnectCatches e then none else some e
    | none => drainFault

/-- One result of `rd.read(READ_BUF_SIZE)` inside the pump: either bytes
(empty means EOF) or an exception raised at one of the pump's await points
(the read, the write or the drain). -/
inductive ReadEv
  | bytes (b : Bytes)
  | raise (e : Exc)
deriving DecidableEq

/-- How a pump iteration history ends: the EOF branch, the caught-exception
branch, or an uncaught exception escaping the pump task.  `none` means the
pump is still running (its event list is not yet decided). -/
inductive ExitKind
  | eofExit
  | errExit
  | escaped (e : Exc)
deriving DecidableEq

/-- A stats or stream action performed by the pump, in order. -/
inductive PumpAct
  | statConn (d : Int)
  | statOctets (n : Nat)
  | writeOut (b : Bytes)
  | writeEofDst
  | closeDst
deriving DecidableEq

/-- The body of the pump's `try` (lines 229-244) over an explicit list of
read results: loop on non-empty reads (count octets, forward the bytes); on
an empty read run the EOF branch (`write_eof`, `drain`, `close`, return); a
raised exception either hits the catch clause (`close` the destination) or
escapes the task. -/
def pumpBody : List ReadEv → List PumpAct × Option ExitKind
  | [] => ([], none)
  | .bytes b :: rest =>
    if b.isEmpty then ([.writeEofDst, .closeDst], some .eofExit)
    else
      let r := pumpBody rest
      (.statOctets b.length :: .writeOut b :: r.1, r.2)
  | .raise e :: _ =>
    if pumpCatches e then ([.closeDst], some .errExit) else ([], some (.escaped e))

/-- `connect_reader_to_writer` (lines 227-246): increment
`curr_connects_x2` on entry; the `finally` clause decrements it on every
exit path, caught or not, but only once the pump actually exits. -/
def connect_reader_to_writer (evs : List ReadEv) : List PumpAct × Option ExitKind :=
  let r := pumpBody evs
  (.statConn 1 :: r.1 ++ (if r.2.isSome then [.statConn (-1)] else []), r.2)

/-- The decrypting wrapper feeding a pump: each underlying read result is
passed through `CryptoWrappedStreamReader.read`, threading the cipher
state; exceptions pass through untouched. -/
def wrapEvents (F : BlockF) : AesCtr → List ReadEv → List ReadEv
  | _, [] => []
  | st, .bytes b :: rest =>
    let r := transform F st b
    .bytes r.1 :: wrapEvents F r.2 rest
  | st, .raise e :: rest => .raise e :: wrapEvents F st rest

/-! ### Per-user statistics (lines 64-76) -/

/-- One user's counters. -/
structure UserStat where
  connects : Int
  curr_connects_x2 : Int
  octets : Int
deriving DecidableEq

/-- The stats registry: missing users read as zero counters (a
`collections.Counter`). -/
def Stats := String → UserStat

/-- `update_stats(user, connects, curr_connects_x2, octets)`: add the
deltas onto the user's counters. -/
def update_stats (s : Stats) (user : String) (connects curr octets : Int) : Stats :=
  fun u =>
    if u = user then
      { connects := (s u).connects + connects
        curr_connects_x2 := (s u).curr_connects_x2 + curr
        octets := (s u).octets + octets }
    else s u

/-- Apply one pump action to the registry on behalf of `user`. -/
def applyPumpAct (user : String) (s : Stats) : PumpAct → Stats
  | .statConn d => update_stats s user 0 d 0
  | .statOctets n => update_stats s user 0 0 (n : Int)
  | _ => s

/-- Apply a sequence of pump actions in order. -/
def applyPumpActs (user : String) (acts : List PumpAct) (s : Stats) : Stats :=
  acts.foldl (applyPumpAct user) s

/-- The `curr_connects_x2` delta carried by one pump action. -/
def connDeltaOf : PumpAct → Int
  | .statConn d => d
  | _ => 0

/-- The total `curr_connects_x2` delta carried by a list of pump actions. -/
def connDelta (acts : List PumpAct) : Int := (acts.map connDeltaOf).sum

/-! ### Helper lemmas -/

theorem tryUser_eq_none_iff (H : HashF) (F : BlockF) (hs : Bytes) (u : User) :
    tryUser H F hs u = none ↔ magicOk H F hs u = false := by
  unfold tryUser
  split <;> simp_all

theorem tryUser_magic (H : HashF) (F : BlockF) (hs : Bytes) (u : User)
    (r : HandshakeResult) (h : tryUser H F hs u = some r) :
    magicOk H F hs u = true := by
  unfold tryUser at h
  split at h
  · assumption
  · exact absurd h (by simp)

theorem matchUsers_some_inv (H : HashF) (F : BlockF) (hs : Bytes) :
    ∀ (us : List User) (r : HandshakeResult), matchUsers H F hs us = some r →
      ∃ u ∈ us, tryUser H F hs u = some r := by
  intro us
  induction us with
  | nil => intro r h; simp [matchUsers] at h
  | cons u us ih =>
    intro r h
    simp only [matchUsers] at h
    cases htry : tryUser H F hs u with
    | some r0 =>
      rw [htry] at h
      exact ⟨u, by simp, by rw [htry]; exact h⟩
    | none =>
      rw [htry] at h
      obtain ⟨v, hv, hvr⟩ := ih r h
      exact ⟨v, by simp [hv], hvr⟩

theorem matchUsers_none_of_all_fail (H : HashF) (F : BlockF) (hs : Bytes) :
    ∀ (us : List User), (∀ u ∈ us, magicOk H F hs u = false) →
      matchUsers H F hs us = none := by
  intro us
  induction us with
  | nil => intro _; rfl
  | cons u us ih =>
    intro hall
    simp only [matchUsers]
    rw [(tryUser_eq_none_iff H F hs u).2 (hall u (by simp))]
    exact ih (fun v hv => hall v (by simp [hv]))

theorem matchUsers_first_match (H : HashF) (F : BlockF) (hs : Bytes)
    (us1 : List User) (u : User) (us2 : List User)
    (hfail : ∀ v ∈ us1, magicOk H F hs v = false)
    (hok : magicOk H F hs u = true) :
    matchUsers H F hs (us1 ++ u :: us2) = tryUser H F hs u := by
  induction us1 with
  | nil =>
    simp only [List.nil_append, matchUsers]
    unfold tryUser
    rw [hok]
    simp
  | cons v us1 ih =>
    simp only [List.cons_append, matchUsers]
    rw [(tryUser_eq_none_iff H F hs v).2 (hfail v (by simp))]
    exact ih (fun w hw => hfail w (by simp [hw]))

theorem handle_handshake_ok_inv (H : HashF) (F : BlockF) (users : List User)
    (input : Bytes) (r : HandshakeResult)
    (h : handle_handshake H F users input = .ok r) :
    64 ≤ input.length ∧ ∃ u ∈ users, tryUser H F (input.take 64) u = some r := by
  unfold handle_handshake at h
  split at h
  · exact absurd h (by simp)
  · refine ⟨by omega, ?_⟩
    cases hm : matchUsers H F (input.take 64) users with
    | some r0 =>
      rw [hm] at h
      cases h
      exact matchUsers_some_inv H F (input.take 64) users r hm
    | none => rw [hm] at h; exact absurd h (by simp)

theorem sampleLoop_mem :
    ∀ (cands : List Bytes) (r : Bytes), sampleLoop cands = some r → r ∈ cands := by
  intro cands
  induction cands with
  | nil => intro r h; simp [sampleLoop] at h
  | cons c cs ih =>
    intro r h
    unfold sampleLoop at h
    split at h
    · cases h; simp
    · exact List.mem_cons_of_mem c (ih r h)

theorem sampleLoop_acceptable :
    ∀ (cands : List Bytes) (r : Bytes), sampleLoop cands = some r →
      acceptable r = true := by
  intro cands
  induction cands with
  | nil => intro r h; simp [sampleLoop] at h
  | cons c cs ih =>
    intro r h
    unfold sampleLoop at h
    split at h
    · cases h; assumption
    · exact ih r h

theorem do_direct_run_ok_inv (F : BlockF) (prefer_ipv6 : Bool) (dc_idx : Int)
    (reuse : Option Bytes) (cands : List Bytes) (connectOk : Bool)
    (d : DirectResult) (acts : List Action)
    (h : do_direct_run F prefer_ipv6 dc_idx reuse cands connectOk = (.ok d, acts)) :
    ∃ rnd0, sampleLoop cands = some rnd0 ∧
      d = mkDirectResult F (settleRnd rnd0 reuse) ∧
      acts = [.connectUpstream ((dcListFor prefer_ipv6).getD dc_idx.toNat ""),
              .writeUpstream d.rnd_enc] := by
  unfold do_direct_run at h
  by_cases hb : ¬(0 ≤ dc_idx ∧ dc_idx < ((dcListFor prefer_ipv6).length : Int))
  · rw [if_pos hb] at h
    exact absurd (congrArg Prod.fst h) (by simp)
  · rw [if_neg hb] at h
    by_cases hc : ¬connectOk
    · rw [if_pos hc] at h
      exact absurd (congrArg Prod.fst h) (by simp)
    · rw [if_neg hc] at h
      cases hs0 : sampleLoop cands with
      | none =>
        rw [hs0] at h
        exact absurd (congrArg Prod.fst h) (by simp)
      | some rnd0 =>
        rw [hs0] at h
        have h1 := congrArg Prod.fst h
        have h2 := congrArg Prod.snd h
        simp at h1 h2
        refine ⟨rnd0, rfl, h1.symm, ?_⟩
        rw [h2.symm, h1]
        simp [List.getD]

theorem setSlice_length (l v : Bytes) (off : Nat) (h : off + v.length ≤ l.length) :
    (setSlice l off v).length = l.length := by
  unfold setSlice
  simp only [List.length_append, List.length_take, List.length_drop]
  omega

theorem setSlice_take_of_le (l v : Bytes) (off n : Nat) (hn : n ≤ off)
    (hl : n ≤ l.length) : (setSlice l off v).take n = l.take n := by
  unfold setSlice
  rw [List.take_append_of_le_length (by simp [List.length_take]; omega),
    List.take_append_of_le_length (by simp [List.length_take]; omega),
    List.take_take]
  congr 1
  omega

theorem setSlice_extract (l v : Bytes) (off : Nat) (h : off ≤ l.length) :
    ((setSlice l off v).drop off).take v.length = v := by
  unfold setSlice
  rw [List.append_assoc,
    List.drop_append_of_le_length (by simp [List.length_take]; omega),
    List.drop_take]
  simp [List.take_left]

theorem settleRnd_take8 (rnd : Bytes) (reuse : Option Bytes) (h : 8 ≤ rnd.length) :
    (settleRnd rnd reuse).take 8 = rnd.take 8 := by
  have h1 : (setSlice rnd 56 MAGIC_VAL_TO_CHECK).take 8 = rnd.take 8 :=
    setSlice_take_of_le rnd _ 56 8 (by omega) h
  have hlen1 : 8 ≤ (setSlice rnd 56 MAGIC_VAL_TO_CHECK).length := by
    unfold setSlice
    simp only [List.length_append, List.length_take, List.length_drop]
    omega
  unfold settleRnd
  cases reuse with
  | none => exact h1
  | some k =>
    by_cases hk : k.isEmpty
    · simp [hk, h1]
    · simp only [hk, if_false, Bool.false_eq_true]
      rw [setSlice_take_of_le _ _ 8 8 (by omega) hlen1, h1]

theorem settleRnd_length (rnd : Bytes) (reuse : Option Bytes) (hr : rnd.length = 64)
    (hre : ∀ k, reuse = some k → k.length = 48) :
    (settleRnd rnd reuse).length = 64 := by
  have h1 : (setSlice rnd 56 MAGIC_VAL_TO_CHECK).length = 64 := by
    rw [setSlice_length rnd _ 56 (by simp [hr, MAGIC_VAL_TO_CHECK])]
    exact hr
  unfold settleRnd
  cases reuse with
  | none => exact h1
  | some k =>
    by_cases hk : k.isEmpty
    · simp [hk, h1]
    · simp only [hk, if_false, Bool.false_eq_true]
      rw [setSlice_length _ _ 8 (by simp [h1, hre k rfl]), h1]

theorem settleRnd_reuse_slice (rnd k : Bytes) (hr : 8 ≤ rnd.length)
    (hk : k.length = 48) (hne : ¬k.isEmpty) :
    ((settleRnd rnd (some k)).drop 8).take 48 = k.reverse := by
  simp only [settleRnd]
  rw [if_neg hne]
  have h1 : 8 ≤ (setSlice rnd 56 MAGIC_VAL_TO_CHECK).length := by
    unfold setSlice
    simp only [List.length_append, List.length_take, List.length_drop]
    omega
  have h2 := setSlice_extract (setSlice rnd 56 MAGIC_VAL_TO_CHECK) k.reverse 8 h1
  rwa [List.length_reverse, hk] at h2

theorem transform_isEmpty (F : BlockF) (st : AesCtr) (b : Bytes) :
    (transform F st b).1.isEmpty = b.isEmpty := by
  cases b with
  | nil => rfl
  | cons x xs => rfl

theorem relayChunks_self (F : BlockF) :
    ∀ (cs : List Bytes) (st : AesCtr), relayChunks F st st cs = cs := by
  intro cs
  induction cs with
  | nil => intro st; rfl
  | cons c cs ih =>
    intro st
    simp only [relayChunks]
    have hst : (transform F st (transform F st c).1).2 = (transform F st c).2 := by
      simp [transform_state, transform_length]
    rw [transform_involution, hst, ih]

theorem applyPumpActs_ccx2 (user : String) :
    ∀ (l : List PumpAct) (s : Stats),
      ((applyPumpActs user l s) user).curr_connects_x2
        = (s user).curr_connects_x2 + connDelta l := by
  intro l
  induction l with
  | nil => intro s; simp [applyPumpActs, connDelta]
  | cons a l ih =>
    intro s
    have step : applyPumpActs user (a :: l) s
        = applyPumpActs user l (applyPumpAct user s a) := rfl
    rw [step, ih]
    have h1 : ((applyPumpAct user s a) user).curr_connects_x2
        = (s user).curr_connects_x2 + connDeltaOf a := by
      cases a <;> simp [applyPumpAct, update_stats, connDeltaOf]
    have h2 : connDelta (a :: l) = connDeltaOf a + connDelta l := by
      simp [connDelta]
    rw [h1, h2]
    omega

theorem connDelta_append (l1 l2 : List PumpAct) :
    connDelta (l1 ++ l2) = connDelta l1 + connDelta l2 := by
  simp [connDelta]

theorem connDelta_perm {l1 l2 : List PumpAct} (h : l1.Perm l2) :
    connDelta l1 = connDelta l2 :=
  List.Perm.sum_eq (List.Perm.map _ h)

theorem pumpBody_connDelta : ∀ (evs : List ReadEv), connDelta (pumpBody evs).1 = 0 := by
  intro evs
  induction evs with
  | nil => rfl
  | cons ev rest ih =>
    cases ev with
    | bytes b =>
      by_cases hb : b.isEmpty
      · simp [pumpBody, hb, connDelta, connDeltaOf]
      · simp only [pumpBody, hb, if_false, Bool.false_eq_true]
        simp [connDelta, connDeltaOf] at ih ⊢
        exact ih
    | raise e =>
      by_cases he : pumpCatches e
      · simp [pumpBody, he, connDelta, connDeltaOf]
      · simp [pumpBody, he, connDelta, connDeltaOf]

theorem connect_reader_to_writer_connDelta (evs : List ReadEv) :
    connDelta (connect_reader_to_writer evs).1
      = if (pumpBody evs).2.isSome then 0 else 1 := by
  unfold connect_reader_to_writer
  have hb := pumpBody_connDelta evs
  by_cases h : (pumpBody evs).2.isSome
  · simp only [h, if_true]
    simp [connDelta, connDeltaOf] at hb ⊢
    omega
  · simp only [h, if_false, Bool.false_eq_true]
    simp [connDelta, connDeltaOf] at hb ⊢
    exact hb

theorem clientDecKey_spec (H : HashF) (hs secret : Bytes) :
    clientDecKey H hs secret = H ((hs.drop 8).take 32 ++ secret) := by
  unfold clientDecKey dec_prekey_and_iv
  rw [List.take_take]
  norm_num

theorem clientDecIv_spec (hs : Bytes) :
    clientDecIv hs = fromBytesBE ((hs.drop 40).take 16) := by
  unfold clientDecIv dec_prekey_and_iv
  rw [List.drop_take, List.drop_drop]

theorem clientEncKey_length (H : HashF) (hs secret : Bytes)
    (hH : ∀ x, (H x).length = 32) : (clientEncKey H hs secret).length = 32 :=
  hH _

theorem clientEncIvBytes_length (hs : Bytes) (h : hs.length = 64) :
    (clientEncIvBytes hs).length = 16 := by
  unfold clientEncIvBytes enc_prekey_and_iv
  simp [List.length_drop, List.length_reverse, List.length_take, h]

theorem pumpBody_wrapEvents_exit (F : BlockF) :
    ∀ (evs : List ReadEv) (st : AesCtr),
      (pumpBody (wrapEvents F st evs)).2 = (pumpBody evs).2 := by
  intro evs
  induction evs with
  | nil => intro st; rfl
  | cons ev rest ih =>
    intro st
    cases ev with
    | bytes b =>
      simp only [wrapEvents, pumpBody, transform_isEmpty]
      by_cases hb : b.isEmpty
      · simp [hb]
      · simp [hb, ih]
    | raise e => rfl

theorem do_direct_run_acts_filter (F : BlockF) (prefer_ipv6 : Bool) (dc_idx : Int)
    (reuse : Option Bytes) (cands : List Bytes) (connectOk : Bool) :
    ((do_direct_run F prefer_ipv6 dc_idx reuse cands connectOk).2).filter isReadAct = [] ∧
    ((do_direct_run F prefer_ipv6 dc_idx reuse cands connectOk).2).filter
        isClientWriteAct = [] := by
  unfold do_direct_run
  by_cases hb : ¬(0 ≤ dc_idx ∧ dc_idx < ((dcListFor prefer_ipv6).length : Int))
  · rw [if_pos hb]
    exact ⟨rfl, rfl⟩
  · rw [if_neg hb]
    by_cases hc : ¬connectOk
    · rw [if_pos hc]
      exact ⟨by simp [isReadAct], by simp [isClientWriteAct]⟩
    · rw [if_neg hc]
      cases sampleLoop cands with
      | none => exact ⟨by simp [isReadAct], by simp [isClientWriteAct]⟩
      | some rnd0 => exact ⟨by simp [isReadAct], by simp [isClientWriteAct]⟩

theorem handle_client_run_filter (H : HashF) (F : BlockF) (cfg : ClientConfig)
    (input : Bytes) (cands : List Bytes) (connectOk : Bool) :
    (handle_client_run H F cfg input cands connectOk).filter isReadAct
        = [.readExact 64] ∧
    (handle_client_run H F cfg input cands connectOk).filter isClientWriteAct = [] := by
  unfold handle_client_run
  cases handle_handshake H F cfg.users input with
  | error e => exact ⟨by simp [isReadAct], by simp [isClientWriteAct]⟩
  | ok r =>
    have hd := do_direct_run_acts_filter F cfg.prefer_ipv6 r.dc_idx
      (if cfg.fast_mode then some r.enc_key_and_iv else none) cands connectOk
    constructor
    · simp only [List.filter_cons, List.filter_append]
      rw [hd.1]
      cases hr : (do_direct_run F cfg.prefer_ipv6 r.dc_idx
          (if cfg.fast_mode then some r.enc_key_and_iv else none) cands connectOk).1 <;>
        simp [isReadAct]
    · simp only [List.filter_cons, List.filter_append]
      rw [hd.2]
      cases hr : (do_direct_run F cfg.prefer_ipv6 r.dc_idx
          (if cfg.fast_mode then some r.enc_key_and_iv else none) cands connectOk).1 <;>
        simp [isClientWriteAct]

/-! ### Concrete fixtures for the closed witnesses -/

/-- A 32-byte-digest hash function for concrete evaluation. -/
def zeroHash : HashF := fun _ => List.replicate 32 0

/-- A block function producing all-zero keystream blocks. -/
def zeroBlock : BlockF := fun _ _ => List.replicate 16 0

/-- A block function whose keystream block repeats the counter value. -/
def ctrBlock : BlockF := fun _ c => List.replicate 16 c

/-- A compliant 64-byte client preamble under `zeroHash`/`zeroBlock`:
magic at bytes 56..60, DC field `01 00`. -/
def wInput : Bytes := List.replicate 56 7 ++ [0xef, 0xef, 0xef, 0xef, 1, 0, 0, 0]

/-- As `wInput` but with a zero DC field. -/
def wInputZeroDc : Bytes := List.replicate 56 7 ++ [0xef, 0xef, 0xef, 0xef, 0, 0, 0, 0]

/-- A configured user. -/
def wUser : User := { name := "alice", secret := List.replicate 16 3 }

/-- An acceptable upstream preamble candidate. -/
def wCand : Bytes := List.replicate 64 1

/-! ### The claims -/

/-- **C6**  Rejection-sampling postcondition: every 64-byte preamble that
`do_direct_handshake` settles on - after the sampling loop, the magic
overwrite at bytes 56..60 and the optional reuse overwrite at bytes 8..56 -
has byte 0 not equal to `EF`, bytes 0..4 equal to none of `HEAD`, `POST`,
`GET `, `EE EE EE EE`, and bytes 4..8 not equal to `00 00 00 00` (the
overwrites never touch bytes 0..8). -/
theorem C6_rejection_sampling (cands : List Bytes) (rnd : Bytes) (reuse : Option Bytes)
    (hs : sampleLoop cands = some rnd) (hlen : 8 ≤ rnd.length) :
    (settleRnd rnd reuse).take 1 ≠ [0xef] ∧
    (settleRnd rnd reuse).take 4 ≠ [0x48, 0x45, 0x41, 0x44] ∧
    (settleRnd rnd reuse).take 4 ≠ [0x50, 0x4F, 0x53, 0x54] ∧
    (settleRnd rnd reuse).take 4 ≠ [0x47, 0x45, 0x54, 0x20] ∧
    (settleRnd rnd reuse).take 4 ≠ [0xee, 0xee, 0xee, 0xee] ∧
    ((settleRnd rnd reuse).drop 4).take 4 ≠ [0x00, 0x00, 0x00, 0x00] := by
  have hacc := sampleLoop_acceptable cands rnd hs
  have h8 := settleRnd_take8 rnd reuse hlen
  have e1 : ∀ (l : Bytes), l.take 1 = (l.take 8).take 1 := by
    intro l
    rw [List.take_take]
    norm_num
  have e4 : ∀ (l : Bytes), l.take 4 = (l.take 8).take 4 := by
    intro l
    rw [List.take_take]
    norm_num
  have e48 : ∀ (l : Bytes), (l.drop 4).take 4 = (l.take 8).drop 4 := by
    intro l
    rw [List.take_drop]
  have ht1 : (settleRnd rnd reuse).take 1 = rnd.take 1 := by
    rw [e1, h8, ← e1]
  have ht4 : (settleRnd rnd reuse).take 4 = rnd.take 4 := by
    rw [e4, h8, ← e4]
  have ht48 : ((settleRnd rnd reuse).drop 4).take 4 = (rnd.drop 4).take 4 := by
    rw [e48, h8, ← e48]
  rw [ht1, ht4, ht48]
  simp [acceptable, RESERVED_NONCE_FIRST_CHARS, RESERVED_NONCE_BEGININGS,
    RESERVED_NONCE_CONTINUES] at hacc
  refine ⟨?_, ?_, ?_, ?_, ?_, ?_⟩ <;> tauto

/-- Witness for C6 at a concrete sampled candidate and reuse material. -/
theorem C6_rejection_sampling_witness :
    (settleRnd wCand (some (List.replicate 48 9))).take 1 ≠ [0xef] ∧
    (settleRnd wCand (some (List.replicate 48 9))).take 4 ≠ [0x48, 0x45, 0x41, 0x44] ∧
    (settleRnd wCand (some (List.replicate 48 9))).take 4 ≠ [0x50, 0x4F, 0x53, 0x54] ∧
    (settleRnd wCand (some (List.replicate 48 9))).take 4 ≠ [0x47, 0x45, 0x54, 0x20] ∧
    (settleRnd wCand (some (List.replicate 48 9))).take 4 ≠ [0xee, 0xee, 0xee, 0xee] ∧
    ((settleRnd wCand (some (List.replicate 48 9))).drop 4).take 4
      ≠ [0x00, 0x00, 0x00, 0x00] :=
  C6_rejection_sampling [wCand] wCand (some (List.replicate 48 9))
    (by decide) (by decide)

/-- **C10**  EOF transparency of the decrypting wrapper:
`CryptoWrappedStreamReader.read` returns the empty byte string exactly when
the underlying read returned empty; decrypting the empty string leaves the
cipher state (hence the keystream position) unchanged; and the pump run
over wrapped read results exits exactly as the pump run over the underlying
read results does (in particular the EOF branch fires exactly at underlying
EOF). -/
theorem C10_eof_transparency (F : BlockF) (st : AesCtr) (b : Bytes)
    (evs : List ReadEv) :
    ((transform F st b).1 = [] ↔ b = []) ∧
    transform F st [] = ([], st) ∧
    (pumpBody (wrapEvents F st evs)).2 = (pumpBody evs).2 := by
  refine ⟨?_, transform_empty F st, pumpBody_wrapEvents_exit F evs st⟩
  constructor
  · intro h
    have hl := transform_length F st b
    rw [h] at hl
    exact List.eq_nil_of_length_eq_zero hl.symm
  · intro h
    subst h
    rfl

/-- **C3**  Pump counter accounting: the pump prepends exactly one
`curr_connects_x2 += 1` on entry and appends exactly one
`curr_connects_x2 -= 1` on every exit path; hence a terminated pump's
actions carry a zero net delta and a live pump's carry +1; after both pumps
of a connection have terminated, applying their actions in any interleaving
returns the user's `curr_connects_x2` to its initial value, and while both
are alive the connection contributes exactly +2. -/
theorem C3_pump_counter_accounting (user : String) (s : Stats)
    (evs1 evs2 : List ReadEv) (l : List PumpAct)
    (h1 : (pumpBody evs1).2.isSome = true) (h2 : (pumpBody evs2).2.isSome = true)
    (hl : l.Perm ((connect_reader_to_writer evs1).1
        ++ (connect_reader_to_writer evs2).1)) :
    ((applyPumpActs user l s) user).curr_connects_x2 = (s user).curr_connects_x2 ∧
    (∀ evs, (connect_reader_to_writer evs).1.head? = some (.statConn 1)) ∧
    (∀ evs, (pumpBody evs).2.isSome = true →
      (connect_reader_to_writer evs).1.getLast? = some (.statConn (-1))) ∧
    (∀ evs, connDelta (connect_reader_to_writer evs).1
        = if (pumpBody evs).2.isSome then 0 else 1) ∧
    (∀ (s2 : Stats) (evs3 evs4 : List ReadEv) (l2 : List PumpAct),
      (pumpBody evs3).2 = none → (pumpBody evs4).2 = none →
      l2.Perm ((connect_reader_to_writer evs3).1
          ++ (connect_reader_to_writer evs4).1) →
      ((applyPumpActs user l2 s2) user).curr_connects_x2
        = (s2 user).curr_connects_x2 + 2) := by
  refine ⟨?_, ?_, ?_, connect_reader_to_writer_connDelta, ?_⟩
  · have hA : connDelta l = 0 := by
      rw [connDelta_perm hl, connDelta_append,
        connect_reader_to_writer_connDelta, connect_reader_to_writer_connDelta,
        h1, h2]
      simp
    rw [applyPumpActs_ccx2, hA, add_zero]
  · intro evs
    rfl
  · intro evs hev
    unfold connect_reader_to_writer
    simp only [hev, if_true]
    rw [List.getLast?_concat]
  · intro s2 evs3 evs4 l2 h3 h4 hl2
    have hA : connDelta l2 = 2 := by
      rw [connDelta_perm hl2, connDelta_append,
        connect_reader_to_writer_connDelta, connect_reader_to_writer_connDelta,
        h3, h4]
      simp
    rw [applyPumpActs_ccx2, hA]

/-- Witness for C3: one pump ends at EOF, the other on a caught reset. -/
theorem C3_pump_counter_accounting_witness :
    ((applyPumpActs "alice"
        ((connect_reader_to_writer [.bytes [5, 6], .bytes []]).1
          ++ (connect_reader_to_writer [.raise .connectionReset]).1)
        (fun _ => { connects := 0, curr_connects_x2 := 0, octets := 0 })) "alice"
      ).curr_connects_x2
      = ((fun _ => { connects := 0, curr_connects_x2 := 0, octets := 0 } : Stats)
          "alice").curr_connects_x2 :=
  (C3_pump_counter_accounting "alice" _ [.bytes [5, 6], .bytes []]
    [.raise .connectionReset] _ (by decide) (by decide) (List.Perm.refl _)).1

/-- **C4**  Counterexample to the claim as stated: a `BrokenPipeError` is a
transport fault, it can be raised during the upstream handshake (the
unguarded `writer_tgt.drain()` of line 183), and `handle_client_wrapper`
catches only `IncompleteReadError` and `ConnectionResetError` (line 255),
so it propagates into the reactor. -/
theorem C4_counterexample :
    isTransportFault .brokenPipe = true ∧
    handle_client_escape none none (some .brokenPipe) = some .brokenPipe ∧
    wrapperEscape (handle_client_escape none none (some .brokenPipe))
      = some .brokenPipe := by
  decide

/-- **C4** (amended)  Transport-fault containment: every transport fault
raised inside either pump is caught at the pump boundary (the pump's catch
set contains all `OSError`s) and converted into a close of the destination;
a fault during the upstream `open_connection` is caught inside
`do_direct_handshake`; but at the supervisor boundary only
`ConnectionResetError` among the transport faults is caught - a
`BrokenPipeError` or generic `OSError` raised during the client or upstream
handshake propagates out of `handle_client_wrapper`. -/
theorem C4_transport_fault_containment (e : Exc) (h : isTransportFault e = true) :
    pumpCatches e = true ∧
    (∀ evs, pumpBody (.raise e :: evs) = ([.closeDst], some .errExit)) ∧
    directConnectCatches e = true ∧
    (wrapperEscape (some e) = none ↔ e = .connectionReset) := by
  have hp : pumpCatches e = true := by
    cases e <;> simp_all [isTransportFault, pumpCatches, isOSError]
  refine ⟨hp, ?_, ?_, ?_⟩
  · intro evs
    simp [pumpBody, hp]
  · cases e <;> simp_all [isTransportFault, directConnectCatches, isOSError]
  · cases e <;> simp_all [isTransportFault, wrapperEscape, wrapperCatches]

/-- Witness for the amended C4 at the broken-pipe fault. -/
theorem C4_transport_fault_containment_witness :
    pumpCatches .brokenPipe = true ∧
    pumpBody [.raise .brokenPipe] = ([.closeDst], some .errExit) ∧
    directConnectCatches .brokenPipe = true ∧
    (wrapperEscape (some .brokenPipe) = none ↔ Exc.brokenPipe = .connectionReset) :=
  ⟨(C4_transport_fault_containment .brokenPipe (by decide)).1,
   (C4_transport_fault_containment .brokenPipe (by decide)).2.1 [],
   (C4_transport_fault_containment .brokenPipe (by decide)).2.2.1,
   (C4_transport_fault_containment .brokenPipe (by decide)).2.2.2⟩

/-- **C8**  Counterexample to the claim as stated: the counter does not
advance by `ceil(len(chunk)/16)` blocks on every call.  The keystream is
byte-position continuous (as the wire protocol and the wrappers require),
so a second 8-byte call continues inside the block the first 8-byte call
opened and generates no new block at all. -/
theorem C8_counterexample :
    blocksGenerated
        (transform zeroBlock
          (transform zeroBlock (create_aes [] 0) (List.replicate 8 0)).2
          (List.replicate 8 0)).2
      ≠ blocksGenerated
          (transform zeroBlock (create_aes [] 0) (List.replicate 8 0)).2
        + (8 + 15) / 16 := by
  decide

/-- **C8** (amended)  CTR round-trip: for every key `SHA-256(prekey||secret)`
and IV, decrypting the encryption of a byte string yields it back, for
every way of splitting it into successive chunks - independently on the
encrypting and the decrypting side; encryption and decryption are the same
XOR-with-keystream operation, and each call advances the keystream
position by the chunk length (so a whole run of `n` bytes has generated
`ceil(n/16)` blocks). -/
theorem C8_ctr_round_trip (F : BlockF) (H : HashF) (prekey secret : Bytes)
    (iv : Nat) (cs ds : List Bytes)
    (hds : ds.flatten
      = (transformAll F (create_aes (H (prekey ++ secret)) iv) cs).1.flatten) :
    (transformAll F (create_aes (H (prekey ++ secret)) iv) ds).1.flatten
      = cs.flatten ∧
    (transformAll F (create_aes (H (prekey ++ secret)) iv) cs).2.pos
      = cs.flatten.length ∧
    blocksGenerated (transformAll F (create_aes (H (prekey ++ secret)) iv) cs).2
      = (cs.flatten.length + 15) / 16 ∧
    (∀ (st : AesCtr) (buf : Bytes), transform F st buf
      = (xorStream F st.key st.iv st.pos buf, { st with pos := st.pos + buf.length })) := by
  have hpos : (transformAll F (create_aes (H (prekey ++ secret)) iv) cs).2.pos
      = cs.flatten.length := by
    rw [(transformAll_flatten F cs (create_aes (H (prekey ++ secret)) iv)).2]
    simp [create_aes]
  refine ⟨?_, hpos, ?_, fun st buf => rfl⟩
  · rw [(transformAll_flatten F ds (create_aes (H (prekey ++ secret)) iv)).1, hds,
      (transformAll_flatten F cs (create_aes (H (prekey ++ secret)) iv)).1]
    exact transform_involution F _ _
  · unfold blocksGenerated
    rw [hpos]

/-- Witness for the amended C8: a 3-byte message encrypted as chunks
`[1,2],[3]` and decrypted as chunks `[0],[3,2]` under a nonzero keystream. -/
theorem C8_ctr_round_trip_witness :
    ([[0], [3, 2]] : List Bytes).flatten
      = (transformAll ctrBlock
          (create_aes ((fun x => x) ([1] ++ [2])) 1) [[1, 2], [3]]).1.flatten ∧
    (transformAll ctrBlock (create_aes ((fun x => x) ([1] ++ [2])) 1)
        [[0], [3, 2]]).1.flatten = ([[1, 2], [3]] : List Bytes).flatten :=
  ⟨by decide,
   (C8_ctr_round_trip ctrBlock (fun x => x) [1] [2] 1 [[1, 2], [3]] [[0], [3, 2]]
      (by decide)).1⟩

/-- **C2**  Handshake accept correctness: users are tried in configured
order; for the first user whose trial decryption of the whole preamble
under key `SHA-256(preamble[8..40] || secret)` with IV `preamble[40..56]`
yields `EF EF EF EF` at bytes 56..60, `handle_handshake` returns that user,
`dc_idx = abs(signed_le_i16(decrypted[60..62])) - 1`, a reader cipher equal
to the successful trial decryptor with its keystream already at byte 64, a
writer cipher keyed by `SHA-256(reverse(preamble[8..56])[0..32] || secret)`
with IV `reverse(preamble[8..56])[32..48]`, and the 48-byte material
`enc_key || enc_iv`. -/
theorem C2_handshake_accept (H : HashF) (F : BlockF) (us1 us2 : List User)
    (u : User) (input : Bytes) (hlen : 64 ≤ input.length)
    (hfail : ∀ v ∈ us1, magicOk H F (input.take 64) v = false)
    (hok : magicOk H F (input.take 64) u = true) :
    handle_handshake H F (us1 ++ u :: us2) input = .ok
      { user := u.name
        dc_idx := ((fromBytesLEsigned
            (((decryptedOf H F (input.take 64) u).drop 60).take 2)).natAbs : Int) - 1
        decryptor :=
          { key := H (((input.take 64).drop 8).take 32 ++ u.secret)
            iv := fromBytesBE (((input.take 64).drop 40).take 16)
            pos := 64 }
        encryptor :=
          { key := H ((((input.take 64).drop 8).take 48).reverse.take 32 ++ u.secret)
            iv := fromBytesBE ((((input.take 64).drop 8).take 48).reverse.drop 32)
            pos := 0 }
        enc_key_and_iv :=
          H ((((input.take 64).drop 8).take 48).reverse.take 32 ++ u.secret)
            ++ (((input.take 64).drop 8).take 48).reverse.drop 32 } := by
  have hlen64 : (input.take 64).length = 64 := by
    rw [List.length_take]
    omega
  have h1 : (transform F (create_aes (clientDecKey H (input.take 64) u.secret)
      (clientDecIv (input.take 64))) (input.take 64)).2
      = { key := H (((input.take 64).drop 8).take 32 ++ u.secret)
          iv := fromBytesBE (((input.take 64).drop 40).take 16)
          pos := 64 } := by
    rw [transform_state]
    simp only [create_aes]
    rw [clientDecKey_spec, clientDecIv_spec, hlen64]
  have hrec : handshakeResultOf H F (input.take 64) u
      = { user := u.name
          dc_idx := ((fromBytesLEsigned
              (((decryptedOf H F (input.take 64) u).drop 60).take 2)).natAbs : Int) - 1
          decryptor :=
            { key := H (((input.take 64).drop 8).take 32 ++ u.secret)
              iv := fromBytesBE (((input.take 64).drop 40).take 16)
              pos := 64 }
          encryptor :=
            { key := H ((((input.take 64).drop 8).take 48).reverse.take 32 ++ u.secret)
              iv := fromBytesBE ((((input.take 64).drop 8).take 48).reverse.drop 32)
              pos := 0 }
          enc_key_and_iv :=
            H ((((input.take 64).drop 8).take 48).reverse.take 32 ++ u.secret)
              ++ (((input.take 64).drop 8).take 48).reverse.drop 32 } := by
    unfold handshakeResultOf
    rw [h1]
    rfl
  unfold handle_handshake
  rw [if_neg (by omega),
    matchUsers_first_match H F (input.take 64) us1 u us2 hfail hok]
  unfold tryUser
  rw [if_pos hok, hrec]

/-- Witness for C2 with one configured user and a compliant preamble. -/
theorem C2_handshake_accept_witness :
    handle_handshake zeroHash zeroBlock [wUser] wInput = .ok
      { user := wUser.name
        dc_idx := ((fromBytesLEsigned
            (((decryptedOf zeroHash zeroBlock (wInput.take 64) wUser).drop 60).take 2)
          ).natAbs : Int) - 1
        decryptor :=
          { key := zeroHash (((wInput.take 64).drop 8).take 32 ++ wUser.secret)
            iv := fromBytesBE (((wInput.take 64).drop 40).take 16)
            pos := 64 }
        encryptor :=
          { key := zeroHash
              ((((wInput.take 64).drop 8).take 48).reverse.take 32 ++ wUser.secret)
            iv := fromBytesBE ((((wInput.take 64).drop 8).take 48).reverse.drop 32)
            pos := 0 }
        enc_key_and_iv :=
          zeroHash ((((wInput.take 64).drop 8).take 48).reverse.take 32 ++ wUser.secret)
            ++ (((wInput.take 64).drop 8).take 48).reverse.drop 32 } :=
  C2_handshake_accept zeroHash zeroBlock [] [] wUser wInput
    (by decide) (by decide) (by decide)

/-- **C5**  Handshake rejection: if the initial read yields fewer than 64
bytes or no configured user's trial decryption produces the magic,
`handle_handshake` fails (raises the incomplete-read error or returns a
falsy result), the supervisor closes the client stream without writing any
bytes to the client, and - on every run - the 64 handshake bytes are read
from the stream exactly once. -/
theorem C5_handshake_rejection (H : HashF) (F : BlockF) (cfg : ClientConfig)
    (input : Bytes) (cands : List Bytes) (connectOk : Bool)
    (hfail : input.length < 64 ∨ ∀ u ∈ cfg.users, magicOk H F (input.take 64) u = false) :
    (handle_handshake H F cfg.users input).toOption = none ∧
    handle_client_run H F cfg input cands connectOk = [.readExact 64, .closeClient] ∧
    (handle_client_run H F cfg input cands connectOk).filter isClientWriteAct = [] ∧
    (∀ (input2 : Bytes) (cands2 : List Bytes) (ok2 : Bool),
      (handle_client_run H F cfg input2 cands2 ok2).filter isReadAct
        = [.readExact 64]) := by
  have herr : ∃ e, handle_handshake H F cfg.users input = .error e := by
    by_cases hshort : input.length < 64
    · refine ⟨.incompleteRead, ?_⟩
      unfold handle_handshake
      rw [if_pos hshort]
    · cases hfail with
      | inl h => exact absurd h hshort
      | inr hall =>
        refine ⟨.noUserMatched, ?_⟩
        unfold handle_handshake
        rw [if_neg hshort,
          matchUsers_none_of_all_fail H F (input.take 64) cfg.users hall]
  obtain ⟨e, he⟩ := herr
  refine ⟨by rw [he]; rfl, ?_, ?_,
    fun input2 cands2 ok2 => (handle_client_run_filter H F cfg input2 cands2 ok2).1⟩
  · unfold handle_client_run
    rw [he]
  · exact (handle_client_run_filter H F cfg input cands connectOk).2

/-- Witness for C5 at a 3-byte (short) client input. -/
theorem C5_handshake_rejection_witness :
    (handle_handshake zeroHash zeroBlock [wUser] [1, 2, 3]).toOption = none ∧
    handle_client_run zeroHash zeroBlock ⟨[wUser], false, true⟩ [1, 2, 3] [wCand] true
      = [.readExact 64, .closeClient] ∧
    (handle_client_run zeroHash zeroBlock ⟨[wUser], false, true⟩ [1, 2, 3] [wCand]
        true).filter isClientWriteAct = [] ∧
    (handle_client_run zeroHash zeroBlock ⟨[wUser], false, true⟩ wInput [wCand]
        true).filter isReadAct = [.readExact 64] :=
  have h := C5_handshake_rejection zeroHash zeroBlock ⟨[wUser], false, true⟩
    [1, 2, 3] [wCand] true (Or.inl (by decide))
  ⟨h.1, h.2.1, h.2.2.1, h.2.2.2 wInput [wCand] true⟩

/-- **C9**  Zero-DC edge case: a preamble whose decrypted DC_INDEX field
(bytes 60..62, little-endian signed) is 0 still authenticates - the match
only tests the magic - and yields `dc_idx = abs(0) - 1 = -1`;
`do_direct_handshake` then fails its bounds check for `-1` under both
`PREFER_IPV6` settings with an empty action trace, i.e. without attempting
a TCP connection, and the supervisor closes such a client. -/
theorem C9_zero_dc_idx (H : HashF) (F : BlockF) (us1 us2 : List User) (u : User)
    (input : Bytes) (hlen : 64 ≤ input.length)
    (hfail : ∀ v ∈ us1, magicOk H F (input.take 64) v = false)
    (hok : magicOk H F (input.take 64) u = true)
    (hdc : fromBytesLEsigned
        (((decryptedOf H F (input.take 64) u).drop 60).take 2) = 0) :
    handle_handshake H F (us1 ++ u :: us2) input
        = .ok (handshakeResultOf H F (input.take 64) u) ∧
    (handshakeResultOf H F (input.take 64) u).dc_idx = -1 ∧
    (∀ (F2 : BlockF) (prefer : Bool) (reuse : Option Bytes) (cands : List Bytes)
        (connectOk : Bool),
      do_direct_run F2 prefer (-1) reuse cands connectOk = (.error .badDcIdx, [])) ∧
    (∀ (prefer fast : Bool) (cands : List Bytes) (connectOk : Bool),
      handle_client_run H F ⟨us1 ++ u :: us2, prefer, fast⟩ input cands connectOk
        = [.readExact 64, .closeClient]) := by
  have hhs : handle_handshake H F (us1 ++ u :: us2) input
      = .ok (handshakeResultOf H F (input.take 64) u) := by
    unfold handle_handshake
    rw [if_neg (by omega),
      matchUsers_first_match H F (input.take 64) us1 u us2 hfail hok]
    unfold tryUser
    rw [if_pos hok]
  have hidx : (handshakeResultOf H F (input.take 64) u).dc_idx = -1 := by
    show dcIdxOf H F (input.take 64) u = -1
    unfold dcIdxOf
    rw [hdc]
    rfl
  have hbad : ∀ (F2 : BlockF) (prefer : Bool) (reuse : Option Bytes)
      (cands : List Bytes) (connectOk : Bool),
      do_direct_run F2 prefer (-1) reuse cands connectOk
        = (.error .badDcIdx, []) := by
    intro F2 prefer reuse cands connectOk
    unfold do_direct_run
    rw [if_pos]
    intro hcon
    exact absurd hcon.1 (by norm_num)
  refine ⟨hhs, hidx, hbad, ?_⟩
  intro prefer fast cands connectOk
  unfold handle_client_run
  simp only [hhs]
  rw [hidx, hbad]
  rfl

/-- Witness for C9 at a concrete zero-DC preamble. -/
theorem C9_zero_dc_idx_witness :
    handle_handshake zeroHash zeroBlock [wUser] wInputZeroDc
        = .ok (handshakeResultOf zeroHash zeroBlock (wInputZeroDc.take 64) wUser) ∧
    (handshakeResultOf zeroHash zeroBlock (wInputZeroDc.take 64) wUser).dc_idx = -1 ∧
    do_direct_run zeroBlock true (-1) none [wCand] true = (.error .badDcIdx, []) ∧
    do_direct_run zeroBlock false (-1) none [wCand] true = (.error .badDcIdx, []) ∧
    handle_client_run zeroHash zeroBlock ⟨[wUser], false, true⟩ wInputZeroDc [wCand]
        true = [.readExact 64, .closeClient] :=
  have h := C9_zero_dc_idx zeroHash zeroBlock [] [] wUser wInputZeroDc
    (by decide) (by decide) (by decide) (by decide)
  ⟨h.1, h.2.1, h.2.2.1 zeroBlock true none [wCand] true,
   h.2.2.1 zeroBlock false none [wCand] true, h.2.2.2 false true [wCand] true⟩

/-- The tail of a one-shot encryption from a fresh cipher equals the
encryption of the tail at keystream position `n`. -/
theorem transform_drop (F : BlockF) (key : Bytes) (iv : Nat) (R : Bytes) (n : Nat)
    (hn : n ≤ R.length) :
    ((transform F (create_aes key iv) R).1).drop n
      = xorStream F key iv n (R.drop n) := by
  show (xorStream F key iv 0 R).drop n = xorStream F key iv n (R.drop n)
  conv_lhs => rw [← List.take_append_drop n R]
  rw [xorStream_append]
  have hlen : (xorStream F key iv 0 (R.take n)).length = n := by
    rw [xorStream_length, List.length_take]
    omega
  rw [List.drop_append_of_le_length (le_of_eq hlen.symm),
    List.drop_eq_nil_of_le (le_of_eq hlen), List.nil_append]
  have h2 : 0 + (R.take n).length = n := by
    rw [List.length_take]
    omega
  rw [h2]

/-- **C1**  Fast-mode equivalence: when `do_direct_handshake` is seeded
with the `enc_key || enc_iv` material returned by the client handshake, the
relay's upstream decryptor is (key, IV and position) identical to the
relay's client-bound encryptor; consequently relaying datacenter chunks by
decrypt-then-reencrypt produces byte-for-byte what forwarding them verbatim
through the two identity transforms produces. -/
theorem C1_fast_mode_equivalence (H : HashF) (F : BlockF) (users : List User)
    (input : Bytes) (prefer connectOk : Bool) (cands : List Bytes)
    (r : HandshakeResult) (d : DirectResult) (acts : List Action) (cs : List Bytes)
    (hH : ∀ x, (H x).length = 32)
    (hc : ∀ c ∈ cands, c.length = 64)
    (hhs : handle_handshake H F users input = .ok r)
    (hdir : do_direct_run F prefer r.dc_idx (some r.enc_key_and_iv) cands connectOk
        = (.ok d, acts)) :
    d.decryptor = r.encryptor ∧
    relayChunks F d.decryptor r.encryptor cs = relayChunksFast cs := by
  obtain ⟨hlen, u, hu, htry⟩ := handle_handshake_ok_inv H F users input r hhs
  have hr : r = handshakeResultOf H F (input.take 64) u := by
    unfold tryUser at htry
    split at htry
    · cases htry
      rfl
    · exact absurd htry (by simp)
  have hlen64 : (input.take 64).length = 64 := by
    rw [List.length_take]
    omega
  have hkey : r.enc_key_and_iv
      = clientEncKey H (input.take 64) u.secret ++ clientEncIvBytes (input.take 64) := by
    rw [hr]
    rfl
  have hklen : r.enc_key_and_iv.length = 48 := by
    rw [hkey, List.length_append, clientEncKey_length H _ _ hH,
      clientEncIvBytes_length _ hlen64]
  obtain ⟨rnd0, hs0, hd, -⟩ := do_direct_run_ok_inv F prefer r.dc_idx
    (some r.enc_key_and_iv) cands connectOk d acts hdir
  have hrnd0 : rnd0.length = 64 := hc rnd0 (sampleLoop_mem cands rnd0 hs0)
  have hne : ¬r.enc_key_and_iv.isEmpty = true := by
    intro hemp
    rw [List.isEmpty_iff] at hemp
    rw [hemp] at hklen
    simp at hklen
  have hslice := settleRnd_reuse_slice rnd0 r.enc_key_and_iv (by omega) hklen hne
  have hdk : upstreamDecKeyIv (settleRnd rnd0 (some r.enc_key_and_iv))
      = r.enc_key_and_iv := by
    unfold upstreamDecKeyIv
    rw [hslice, List.reverse_reverse]
  have hA : (clientEncKey H (input.take 64) u.secret).length = 32 := hH _
  have htk : r.enc_key_and_iv.take 32 = clientEncKey H (input.take 64) u.secret := by
    rw [hkey, ← hA, List.take_left]
  have hdr : r.enc_key_and_iv.drop 32 = clientEncIvBytes (input.take 64) := by
    rw [hkey, ← hA, List.drop_left]
  have heq : d.decryptor = r.encryptor := by
    rw [hd]
    show create_aes
        ((upstreamDecKeyIv (settleRnd rnd0 (some r.enc_key_and_iv))).take 32)
        (fromBytesBE ((upstreamDecKeyIv (settleRnd rnd0 (some r.enc_key_and_iv))).drop 32))
      = r.encryptor
    rw [hdk, htk, hdr, hr]
    rfl
  refine ⟨heq, ?_⟩
  rw [heq, relayChunks_self F cs r.encryptor]
  simp [relayChunksFast, fakeTransform]

/-- Witness for C1 at a concrete handshake, upstream handshake and chunk
sequence. -/
theorem C1_fast_mode_equivalence_witness :
    (mkDirectResult zeroBlock (settleRnd wCand
        (some (handshakeResultOf zeroHash zeroBlock (wInput.take 64)
          wUser).enc_key_and_iv))).decryptor
      = (handshakeResultOf zeroHash zeroBlock (wInput.take 64) wUser).encryptor ∧
    relayChunks zeroBlock
      (mkDirectResult zeroBlock (settleRnd wCand
        (some (handshakeResultOf zeroHash zeroBlock (wInput.take 64)
          wUser).enc_key_and_iv))).decryptor
      (handshakeResultOf zeroHash zeroBlock (wInput.take 64) wUser).encryptor
      [[1, 2], [3]]
      = relayChunksFast [[1, 2], [3]] :=
  C1_fast_mode_equivalence zeroHash zeroBlock [wUser] wInput false true [wCand]
    (handshakeResultOf zeroHash zeroBlock (wInput.take 64) wUser)
    (mkDirectResult zeroBlock (settleRnd wCand
      (some (handshakeResultOf zeroHash zeroBlock (wInput.take 64)
        wUser).enc_key_and_iv)))
    [.connectUpstream "149.154.175.50",
     .writeUpstream (mkDirectResult zeroBlock (settleRnd wCand
       (some (handshakeResultOf zeroHash zeroBlock (wInput.take 64)
         wUser).enc_key_and_iv))).rnd_enc]
    [[1, 2], [3]]
    (fun _ => rfl) (by decide) (by rfl) (by rfl)

/-- **C7**  Upstream preamble transmission: for the settled 64-byte
preamble, the bytes written to the datacenter are the plaintext first 56
bytes followed by the last 8 bytes of the one-shot encryption of the whole
preamble; those last 8 bytes equal the encryption of the plaintext at
offsets 56..64; and afterwards the upstream encryptor stands exactly 4
blocks (64 bytes) past its IV, the position used for all subsequent payload
encryption. -/
theorem C7_upstream_preamble (F : BlockF) (prefer : Bool) (dc_idx : Int)
    (reuse : Option Bytes) (cands : List Bytes) (connectOk : Bool)
    (d : DirectResult) (acts : List Action)
    (hc : ∀ c ∈ cands, c.length = 64)
    (hre : ∀ k, reuse = some k → k.length = 48)
    (hrun : do_direct_run F prefer dc_idx reuse cands connectOk = (.ok d, acts)) :
    d.rnd.length = 64 ∧
    acts = [.connectUpstream ((dcListFor prefer).getD dc_idx.toNat ""),
            .writeUpstream d.rnd_enc] ∧
    d.rnd_enc = d.rnd.take 56
      ++ ((transform F (create_aes ((upstreamEncKeyIv d.rnd).take 32)
            (fromBytesBE ((upstreamEncKeyIv d.rnd).drop 32))) d.rnd).1).drop 56 ∧
    ((transform F (create_aes ((upstreamEncKeyIv d.rnd).take 32)
        (fromBytesBE ((upstreamEncKeyIv d.rnd).drop 32))) d.rnd).1).length = 64 ∧
    d.rnd_enc.drop 56
      = xorStream F ((upstreamEncKeyIv d.rnd).take 32)
          (fromBytesBE ((upstreamEncKeyIv d.rnd).drop 32)) 56 (d.rnd.drop 56) ∧
    d.encryptor = { key := (upstreamEncKeyIv d.rnd).take 32
                    iv := fromBytesBE ((upstreamEncKeyIv d.rnd).drop 32)
                    pos := 64 } ∧
    blocksGenerated d.encryptor = 4 := by
  obtain ⟨rnd0, hs0, hd, hacts⟩ := do_direct_run_ok_inv F prefer dc_idx
    reuse cands connectOk d acts hrun
  have hrnd0 : rnd0.length = 64 := hc rnd0 (sampleLoop_mem cands rnd0 hs0)
  have hR : (settleRnd rnd0 reuse).length = 64 := settleRnd_length rnd0 reuse hrnd0 hre
  have hmkrnd : (mkDirectResult F (settleRnd rnd0 reuse)).rnd = settleRnd rnd0 reuse := rfl
  have hdrnd : d.rnd = settleRnd rnd0 reuse := by
    rw [hd, hmkrnd]
  have henc : d.encryptor
      = { key := (upstreamEncKeyIv d.rnd).take 32
          iv := fromBytesBE ((upstreamEncKeyIv d.rnd).drop 32)
          pos := 64 } := by
    rw [hd, hmkrnd]
    show (transform F (create_aes ((upstreamEncKeyIv (settleRnd rnd0 reuse)).take 32)
        (fromBytesBE ((upstreamEncKeyIv (settleRnd rnd0 reuse)).drop 32)))
        (settleRnd rnd0 reuse)).2 = _
    rw [transform_state]
    simp only [create_aes, hR, Nat.zero_add]
  refine ⟨by rw [hdrnd]; exact hR, hacts, ?_, ?_, ?_, henc, ?_⟩
  · rw [hd]
    rfl
  · rw [transform_length, hdrnd]
    exact hR
  · have htail : d.rnd_enc
        = d.rnd.take 56
          ++ ((transform F (create_aes ((upstreamEncKeyIv d.rnd).take 32)
                (fromBytesBE ((upstreamEncKeyIv d.rnd).drop 32))) d.rnd).1).drop 56 := by
      rw [hd]
      rfl
    rw [htail]
    have h56 : (d.rnd.take 56).length = 56 := by
      rw [List.length_take, hdrnd, hR]
      norm_num
    rw [List.drop_append_of_le_length (le_of_eq h56.symm),
      List.drop_eq_nil_of_le (le_of_eq h56), List.nil_append]
    exact transform_drop F _ _ d.rnd 56 (by rw [hdrnd, hR]; omega)
  · rw [henc]
    simp [blocksGenerated]

/-- Witness for C7 at a concrete upstream handshake without key reuse. -/
theorem C7_upstream_preamble_witness :
    (mkDirectResult ctrBlock (settleRnd wCand none)).rnd.length = 64 ∧
    (mkDirectResult ctrBlock (settleRnd wCand none)).rnd_enc
      = (mkDirectResult ctrBlock (settleRnd wCand none)).rnd.take 56
        ++ ((transform ctrBlock (create_aes
              ((upstreamEncKeyIv (mkDirectResult ctrBlock
                (settleRnd wCand none)).rnd).take 32)
              (fromBytesBE ((upstreamEncKeyIv (mkDirectResult ctrBlock
                (settleRnd wCand none)).rnd).drop 32)))
            (mkDirectResult ctrBlock (settleRnd wCand none)).rnd).1).drop 56 ∧
    blocksGenerated (mkDirectResult ctrBlock (settleRnd wCand none)).encryptor = 4 :=
  have h := C7_upstream_preamble ctrBlock false 0 none [wCand] true
    (mkDirectResult ctrBlock (settleRnd wCand none))
    [.connectUpstream "149.154.175.50",
     .writeUpstream (mkDirectResult ctrBlock (settleRnd wCand none)).rnd_enc]
    (by decide) (fun k hk => nomatch hk) (by rfl)
  ⟨h.1, h.2.2.1, h.2.2.2.2.2.2⟩

end Mtp
